import Mathlib

/-!
Verification of the Helios inference gateway (`src/server`).

Text is modelled as `List Char`; Python string operations (`str.strip`,
`str.replace`, `str.split('\n')`, `'\n'.join`) are embedded as executable
functions on `List Char`.  Floating-point quantities (temperatures,
confidences, wall-clock times) are modelled as rationals.  The external
Ollama backend and the wall clock are oracles supplied as parameters, and
`generate_completion` additionally records an event trace so that claims
about call order ("the backend is never invoked", "post-processing happens
inside the measured interval") can be stated.
-/

namespace Helios

/-- The whitespace predicate of Python's `str.strip()` (restricted to the
ASCII whitespace characters). -/
def pyIsSpace (c : Char) : Bool :=
  c = ' ' || c = '\t' || c = '\n' || c = '\r' || c = '\x0b' || c = '\x0c'

/-- Remove leading whitespace, as in Python's `str.lstrip()`. -/
def lstrip (s : List Char) : List Char := s.dropWhile pyIsSpace

/-- Remove trailing whitespace, as in Python's `str.rstrip()`. -/
def rstrip (s : List Char) : List Char := (s.reverse.dropWhile pyIsSpace).reverse

/-- Python's `str.strip()`: remove whitespace at both ends. -/
def pystrip (s : List Char) : List Char := lstrip (rstrip s)

/-- Worker for `removeAll`, structurally recursive on a fuel argument that
bounds the length of the remaining text (each step consumes at least one
character, so fuel `s.length` never runs out; see `removeAll_cons`). -/
def removeAllAux (pat : List Char) : Nat → List Char → List Char
  | _, [] => []
  | 0, s => s
  | fuel + 1, c :: rest =>
    if pat.isPrefixOf (c :: rest) ∧ pat ≠ [] then
      removeAllAux pat fuel (rest.drop (pat.length - 1))
    else
      c :: removeAllAux pat fuel rest

/-- Python's `s.replace(pat, '')` for a pattern: delete every occurrence of
`pat`, scanning left to right and never rescanning text already passed
(occurrences spliced together by a deletion are not removed). -/
def removeAll (pat s : List Char) : List Char := removeAllAux pat s.length s

/-- `line.strip()` used as a Python truth value: a line is blank when
stripping it leaves the empty string. -/
def isBlank (l : List Char) : Bool := (pystrip l).isEmpty

/-- The artifact-token list of `_post_process_completion`
(src/server/inference.py, in source order). -/
def artifacts : List (List Char) :=
  [ "<MID>".data, "</MID>".data, "<SUF>".data, "</SUF>".data,
    "<PRE>".data, "</PRE>".data,
    "```python".data, "```javascript".data, "```typescript".data, "```".data,
    "<code>".data, "</code>".data ]

/-- The `for artifact in artifacts: completion = completion.replace(artifact, '')`
loop: fold the removals over the artifact list in order. -/
def stripArtifacts (s : List Char) : List Char :=
  artifacts.foldl (fun acc pat => removeAll pat acc) s

/-- The line-cleanup loop of `_post_process_completion`: keep non-empty lines;
at the first blank line that follows content, append one empty line and stop. -/
def cleanAux (acc : List (List Char)) : List (List Char) → List (List Char)
  | [] => acc
  | l :: rest =>
    if isBlank l = false then cleanAux (acc ++ [l]) rest
    else if acc ≠ [] ∧ isBlank (acc.getLastD []) = false then acc ++ [[]]
    else cleanAux acc rest

/-- `'\n'.join` on a list of lines. -/
def joinNl (L : List (List Char)) : List Char := List.intercalate ['\n'] L

/-- `CodeLlamaInference._post_process_completion` (the `request` argument is
unused by the Python body and omitted): strip, remove artifact tokens,
truncate at the first blank-line gap, strip again. -/
def post_process_completion (completion : List Char) : List Char :=
  pystrip (joinNl (cleanAux [] ((stripArtifacts (pystrip completion)).splitOn '\n')))

/-! ## Data model (src/server/models.py) -/

/-- `CompletionRequest` (pydantic model).  `max_tokens` and `temperature`
are `Optional`; the pydantic defaults are `100` and `0.1`, so `none`
corresponds to an explicit `null` in the request body. -/
structure CompletionRequest where
  code : List Char
  language : List Char
  position : Int × Int
  filename : List Char
  max_tokens : Option Int := some 100
  temperature : Option ℚ := some (1/10)
deriving DecidableEq

/-- `ServerConfig` (dataclass) with its literal defaults. -/
structure ServerConfig where
  host : List Char := "127.0.0.1".data
  port : Int := 8000
  model_name : List Char := "codellama:7b-code".data
  max_tokens : Int := 100
  temperature : ℚ := 1/10
  debug : Bool := false
deriving DecidableEq

/-- `CompletionResponse`. -/
structure CompletionResponse where
  suggestion : List Char
  confidence : ℚ
  processing_time : ℚ
deriving DecidableEq

/-- `HealthResponse`. -/
structure HealthResponse where
  status : List Char
  model_loaded : Bool
  server_version : List Char
  uptime : ℚ
deriving DecidableEq

/-! ## Backend oracle and pipeline (src/server/inference.py) -/

/-- An exception raised by the Ollama client (carries only a message). -/
inductive PyError where
  | err (msg : List Char)
deriving DecidableEq

/-- The decoding options dictionary passed to `client.generate`. -/
structure GenOptions where
  num_predict : Int
  temperature : ℚ
  top_p : ℚ
  stop : List (List Char)
deriving DecidableEq

/-- Errors out of `generate_completion`: the `RuntimeError("Model not loaded")`
guard, or a re-raised backend exception. -/
inductive GenError where
  | notLoaded
  | backend (e : PyError)
deriving DecidableEq

/-- Oracle for the backend `generate` call made per completion request. -/
structure GenBackend where
  generate : List Char → GenOptions → Except PyError (List Char)

/-- Observable events of one `generate_completion` run, in order: the calls
to `time.time()` (numbered), the backend generate call (with the options it
receives), and the post-processing step. -/
inductive Event where
  | timeSample (k : Nat)
  | backendGenerate (prompt : List Char) (opts : GenOptions)
  | postProcess
deriving DecidableEq

/-- `CodeLlamaInference._prepare_prompt`: the f-string
`"<PRE> {filename}\n{code}<SUF><MID>"`.  Only `filename` and `code` of the
request are read. -/
def prepare_prompt (req : CompletionRequest) : List Char :=
  "<PRE> ".data ++ req.filename ++ '\n' :: req.code ++ "<SUF><MID>".data

/-- Python's `x or d` applied to an `Optional[int]`: falls back to `d` when
`x` is `None` **or** zero (truthiness, not null-coalescing). -/
def pyOrInt (x : Option Int) (d : Int) : Int :=
  match x with
  | none => d
  | some v => if v = 0 then d else v

/-- Python's `x or d` applied to an `Optional[float]`: falls back to `d` when
`x` is `None` **or** `0.0`. -/
def pyOrRat (x : Option ℚ) (d : ℚ) : ℚ :=
  match x with
  | none => d
  | some v => if v = 0 then d else v

/-- The options dictionary built by `generate_completion`:
`num_predict = request.max_tokens or config.max_tokens` (Python `or`),
`temperature = request.temperature or config.temperature` (Python `or`),
`top_p = 0.9`, `stop = ['\n\n', '` ``` `', '</code>']`. -/
def genOpts (req : CompletionRequest) (cfg : ServerConfig) : GenOptions :=
  { num_predict := pyOrInt req.max_tokens cfg.max_tokens,
    temperature := pyOrRat req.temperature cfg.temperature,
    top_p := 9/10,
    stop := ["\n\n".data, "```".data, "</code>".data] }

/-- `CodeLlamaInference.generate_completion`.  `clock k` is the value
returned by the `k`-th call to `time.time()`.  Returns the result (the
stripped, post-processed completion and the measured processing time, or the
raised error) together with the event trace of the run. -/
def generate_completion (b : GenBackend) (clock : Nat → ℚ) (model_loaded : Bool)
    (req : CompletionRequest) (cfg : ServerConfig) :
    Except GenError (List Char × ℚ) × List Event :=
  if model_loaded = false then (.error .notLoaded, [])
  else
    let t0 := clock 0
    let prompt := prepare_prompt req
    let opts : GenOptions := genOpts req cfg
    match b.generate prompt opts with
    | .error e => (.error (.backend e), [.timeSample 0, .backendGenerate prompt opts])
    | .ok raw =>
      let completion := pystrip raw
      let processing_time := clock 1 - t0
      let completion2 := post_process_completion completion
      (.ok (completion2, processing_time),
       [.timeSample 0, .backendGenerate prompt opts, .timeSample 1, .postProcess])

/-- `true` when the trace contains a `time.time()` sample taken strictly
after a post-processing event; the accumulator records whether a
`postProcess` event has been seen. -/
def timeSampleAfterPost : Bool → List Event → Bool
  | _, [] => false
  | seenPost, e :: rest =>
    match e with
    | .postProcess => timeSampleAfterPost true rest
    | .timeSample _ => seenPost || timeSampleAfterPost seenPost rest
    | .backendGenerate _ _ => timeSampleAfterPost seenPost rest

/-- The measured interval (which closes at the last `time.time()` sample)
contains the post-processing step: some time sample occurs after
`postProcess` in the trace. -/
def postInsideMeasured (tr : List Event) : Prop :=
  timeSampleAfterPost false tr = true

instance (tr : List Event) : Decidable (postInsideMeasured tr) := by
  unfold postInsideMeasured; infer_instance

/-! ## HTTP adapter (src/server/main.py) -/

/-- Outcome of an HTTP route: a 200 body, or an `HTTPException` with a
status code and detail message. -/
inductive HttpResult (α : Type) where
  | ok (body : α)
  | httpError (status : Nat) (detail : List Char)
deriving DecidableEq

/-- The `/complete` route `get_completion`: 503 when the engine is absent or
the model is not loaded, 500 when generation raises, otherwise a
`CompletionResponse` whose confidence is
`min(0.95, len(completion)/100*0.8 + (1/max(processing_time, 0.1))*0.2)`. -/
def get_completion (engine_present : Bool) (b : GenBackend) (clock : Nat → ℚ)
    (model_loaded : Bool) (req : CompletionRequest) (cfg : ServerConfig) :
    HttpResult CompletionResponse × List Event :=
  if engine_present = false then
    (.httpError 503 "Inference engine not initialized".data, [])
  else if model_loaded = false then
    (.httpError 503 "Model not loaded".data, [])
  else
    match generate_completion b clock model_loaded req cfg with
    | (.error _, tr) => (.httpError 500 "Failed to generate completion".data, tr)
    | (.ok (completion, processing_time), tr) =>
      (.ok { suggestion := completion,
             confidence := min (95/100 : ℚ)
               ((completion.length : ℚ) / 100 * (8/10) +
                 1 / max processing_time (1/10) * (2/10)),
             processing_time := processing_time }, tr)

/-- The `/health` route: always a 200 `HealthResponse` with status
`"healthy"`; `model_loaded` is `inference_engine.is_model_loaded()` when the
engine exists, else `False`.  `engine` is `none` when the global
`inference_engine` is still `None`, otherwise `some` of its `model_loaded`
flag. -/
def health_check (engine : Option Bool) (uptime : ℚ) : HttpResult HealthResponse :=
  .ok { status := "healthy".data,
        model_loaded := engine.getD false,
        server_version := "0.1.0".data,
        uptime := uptime }

/-! ## Initialization (src/server/inference.py, `initialize` / `pull_model`) -/

/-- Oracle for the backend calls of one `initialize` run: the result of
`client.list()`, whether `client.pull` succeeds, and the result of the
validation `client.generate` depending on whether the model is available
(present locally or successfully pulled) at that point. -/
structure InitBackend where
  listModels : Except PyError (List (List Char))
  pullOk : Bool
  generateAvailable : Except PyError (List Char)
  generateMissing : Except PyError (List Char)

/-- `CodeLlamaInference.pull_model`: catches any exception of `client.pull`
internally and returns a boolean; it never raises. -/
def pull_model (b : InitBackend) : Bool := b.pullOk

/-- `CodeLlamaInference.initialize`: list models, pull if the configured
model is absent (the returned boolean of `pull_model` is ignored, exactly as
in the source), then run one validation generation.  The surrounding
`try/except Exception` catches every raised error, so the embedding is a
total function returning `(return value, model_loaded)` — `initialize` never
propagates an exception to its caller. -/
def init_model (b : InitBackend) (cfg : ServerConfig) : Bool × Bool :=
  match b.listModels with
  | .error _ => (false, false)
  | .ok names =>
    let inList := names.contains cfg.model_name
    let available := inList || (!inList && pull_model b)
    match (if available then b.generateAvailable else b.generateMissing) with
    | .error _ => (false, false)
    | .ok _ => (true, true)

/-! ## Derived forms used to state and prove properties -/

/-- The behaviour of the cleanup loop after content has been seen (the
accumulator is non-empty with a non-blank last line): keep non-blank lines,
emit one empty line and stop at the first blank. -/
def cleanAfter : List (List Char) → List (List Char)
  | [] => []
  | l :: rest => if isBlank l = false then l :: cleanAfter rest else [[]]

/-- The behaviour of the cleanup loop before any content has been seen:
blank lines are skipped; the first non-blank line switches to `cleanAfter`. -/
def cleanStart : List (List Char) → List (List Char)
  | [] => []
  | l :: rest => if isBlank l = false then l :: cleanAfter rest else cleanStart rest

/-- Index of the first blank line that follows non-empty content (the first
"blank-line gap"); the list length when there is none.  The boolean records
whether a non-blank line has been seen. -/
def gapSearch : Bool → List (List Char) → Nat
  | _, [] => 0
  | seen, l :: rest =>
    if seen && isBlank l then 0
    else 1 + gapSearch (seen || !(isBlank l)) rest

/-- Index of the first blank-line gap of a line list. -/
def firstGapIdx (L : List (List Char)) : Nat := gapSearch false L

/-- The non-blank lines located at or before the first blank-line gap. -/
def gapContent (L : List (List Char)) : List (List Char) :=
  (L.take (firstGapIdx L)).filter (fun l => !(isBlank l))

/-- `s` contains no occurrence of any configured artifact token. -/
def tokenFree (s : List Char) : Prop :=
  ∀ tok ∈ artifacts, ¬ tok <:+: s

instance (s : List Char) : Decidable (tokenFree s) := by
  unfold tokenFree; infer_instance

/-! ## Concrete sample inputs used to instantiate the theorems -/

/-- The `ServerConfig()` instance built at module import in main.py: all
fields take their dataclass defaults. -/
def defaultConfig : ServerConfig := {}

/-- The example request of the test suite and the spec scenario. -/
def sampleRequest : CompletionRequest :=
  { code := "def hello():".data, language := "python".data,
    position := (0, 12), filename := "test.py".data }

/-- The same request with an explicit `temperature` of `0.0`. -/
def zeroTempRequest : CompletionRequest :=
  { sampleRequest with temperature := some 0 }

/-- The same request with a different language and position. -/
def altRequest : CompletionRequest :=
  { sampleRequest with language := "typescript".data, position := (5, 3) }

/-- A backend whose generate call deterministically returns
`"\n    print('hi')\n\n"`. -/
def sampleBackend : GenBackend :=
  ⟨fun _ _ => .ok "\n    print('hi')\n\n".data⟩

/-- A wall clock whose `k`-th sample is `k/2` seconds. -/
def sampleClock : Nat → ℚ := fun k => (k : ℚ) / 2

/-- The `/complete` response of the sample run (backend `sampleBackend`,
clock `sampleClock`): suggestion `print('hi')` (11 characters), elapsed
time `1/2`, confidence `min(0.95, 11/100*0.8 + (1/(1/2))*0.2) = 61/125`. -/
def sampleResponse : CompletionResponse :=
  { suggestion := "print('hi')".data, confidence := 61/125,
    processing_time := 1/2 }

/-- The event trace of a successful `generate_completion` run on
`sampleRequest` against `defaultConfig`. -/
def sampleTrace : List Event :=
  [.timeSample 0,
   .backendGenerate (prepare_prompt sampleRequest) (genOpts sampleRequest defaultConfig),
   .timeSample 1, .postProcess]

/-- An initialization backend where the configured model is absent, the
pull fails, and generating against the missing model raises. -/
def sampleInitBackend : InitBackend :=
  { listModels := .ok ["other:model".data],
    pullOk := false,
    generateAvailable := .ok "ok".data,
    generateMissing := .error (.err "model not found".data) }

/-! ## Unfolding equations for removeAll -/

theorem removeAllAux_nil (pat : List Char) (n : Nat) :
    removeAllAux pat n [] = [] := by
  cases n <;> rfl

theorem removeAllAux_add {pat : List Char} (d : Nat) :
    ∀ (fuel : Nat) (s : List Char), s.length ≤ fuel →
      removeAllAux pat (fuel + d) s = removeAllAux pat fuel s := by
  intro fuel
  induction fuel with
  | zero =>
    intro s h
    cases s with
    | nil => rw [removeAllAux_nil, removeAllAux_nil]
    | cons c rest => simp at h
  | succ f ih =>
    intro s h
    cases s with
    | nil => rw [removeAllAux_nil, removeAllAux_nil]
    | cons c rest =>
      have hr : rest.length ≤ f := by
        rw [List.length_cons] at h
        omega
      rw [show f + 1 + d = (f + d) + 1 by omega]
      simp only [removeAllAux]
      by_cases hcond : pat.isPrefixOf (c :: rest) ∧ pat ≠ []
      · rw [if_pos hcond, if_pos hcond,
          ih _ (le_trans (by rw [List.length_drop]; omega) hr)]
      · rw [if_neg hcond, if_neg hcond, ih rest hr]

theorem removeAll_cons (pat : List Char) (c : Char) (rest : List Char) :
    removeAll pat (c :: rest) =
      if pat.isPrefixOf (c :: rest) ∧ pat ≠ [] then
        removeAll pat (rest.drop (pat.length - 1))
      else c :: removeAll pat rest := by
  show removeAllAux pat (rest.length + 1) (c :: rest) = _
  simp only [removeAllAux]
  by_cases hcond : pat.isPrefixOf (c :: rest) ∧ pat ≠ []
  · rw [if_pos hcond, if_pos hcond]
    show removeAllAux pat rest.length _ = removeAllAux pat (rest.drop (pat.length - 1)).length _
    have hlen : (rest.drop (pat.length - 1)).length ≤ rest.length := by
      rw [List.length_drop]; omega
    rw [show rest.length = (rest.drop (pat.length - 1)).length +
        (rest.length - (rest.drop (pat.length - 1)).length) by omega]
    exact removeAllAux_add _ _ _ (le_refl _)
  · rw [if_neg hcond, if_neg hcond]
    rfl

/-! ## Lemmas about stripping -/

theorem dropWhile_head_false {α : Type} {p : α → Bool} {l : List α} {c : α} {rest : List α}
    (h : l.dropWhile p = c :: rest) : p c = false := by
  induction l with
  | nil => simp at h
  | cons a t ih =>
    rw [List.dropWhile_cons] at h
    by_cases hp : p a
    · rw [if_pos hp] at h; exact ih h
    · rw [if_neg hp] at h
      cases h
      simpa using hp

theorem dropWhile_idem {α : Type} {p : α → Bool} (l : List α) :
    (l.dropWhile p).dropWhile p = l.dropWhile p := by
  cases h : l.dropWhile p with
  | nil => rfl
  | cons c rest =>
    rw [List.dropWhile_cons, dropWhile_head_false h]
    simp

theorem lstrip_idem (s : List Char) : lstrip (lstrip s) = lstrip s := dropWhile_idem s

theorem rstrip_idem (s : List Char) : rstrip (rstrip s) = rstrip s := by
  unfold rstrip
  rw [List.reverse_reverse, dropWhile_idem]

theorem mem_lstrip {c : Char} {s : List Char} (h : c ∈ lstrip s) : c ∈ s :=
  (List.dropWhile_suffix pyIsSpace).subset h

theorem mem_rstrip {c : Char} {s : List Char} (h : c ∈ rstrip s) : c ∈ s := by
  unfold rstrip at h
  rw [List.mem_reverse] at h
  exact List.mem_reverse.mp ((List.dropWhile_suffix pyIsSpace).subset h)

theorem mem_lstrip_of_not_space {c : Char} {s : List Char}
    (hc : c ∈ s) (hns : pyIsSpace c = false) : c ∈ lstrip s := by
  have hsplit := List.takeWhile_append_dropWhile pyIsSpace s
  rcases List.mem_append.mp (hsplit ▸ hc) with h | h
  · exact absurd (List.mem_takeWhile_imp h) (by simp [hns])
  · exact h

theorem mem_rstrip_of_not_space {c : Char} {s : List Char}
    (hc : c ∈ s) (hns : pyIsSpace c = false) : c ∈ rstrip s := by
  unfold rstrip
  rw [List.mem_reverse]
  exact mem_lstrip_of_not_space (List.mem_reverse.mpr hc) hns

theorem lstrip_eq_nil_iff {s : List Char} :
    lstrip s = [] ↔ ∀ c ∈ s, pyIsSpace c = true :=
  List.dropWhile_eq_nil_iff

theorem rstrip_eq_nil_iff {s : List Char} :
    rstrip s = [] ↔ ∀ c ∈ s, pyIsSpace c = true := by
  unfold rstrip
  rw [List.reverse_eq_nil_iff, List.dropWhile_eq_nil_iff]
  constructor
  · intro h c hc; exact h c (List.mem_reverse.mpr hc)
  · intro h c hc; exact h c (List.mem_reverse.mp hc)

theorem pystrip_eq_nil_iff {s : List Char} :
    pystrip s = [] ↔ ∀ c ∈ s, pyIsSpace c = true := by
  unfold pystrip
  rw [lstrip_eq_nil_iff]
  constructor
  · intro h c hc
    by_cases hp : pyIsSpace c
    · exact hp
    · exact h c (mem_rstrip_of_not_space hc (by simpa using hp))
  · intro h c hc; exact h c (mem_rstrip hc)

theorem isBlank_eq_false_iff {l : List Char} :
    isBlank l = false ↔ ∃ c ∈ l, pyIsSpace c = false := by
  unfold isBlank
  rw [List.isEmpty_eq_false, Ne, pystrip_eq_nil_iff]
  push_neg
  constructor
  · rintro ⟨c, hc, h⟩; exact ⟨c, hc, by simpa using h⟩
  · rintro ⟨c, hc, h⟩; exact ⟨c, hc, by simpa using h⟩

theorem rstrip_eq_self {t : List Char}
    (h : ∀ c w, t.reverse = c :: w → pyIsSpace c = false) : rstrip t = t := by
  unfold rstrip
  cases hw : t.reverse with
  | nil => simpa using (List.reverse_eq_nil_iff.mp hw).symm
  | cons c w =>
    rw [List.dropWhile_cons_of_neg (by simp [h c w hw]), ← hw, List.reverse_reverse]

theorem rstrip_lstrip_rstrip (s : List Char) :
    rstrip (lstrip (rstrip s)) = lstrip (rstrip s) := by
  have hsuff : lstrip (rstrip s) <:+ rstrip s := List.dropWhile_suffix _
  have hpre : (lstrip (rstrip s)).reverse <+: (rstrip s).reverse := by
    rw [List.reverse_prefix]; exact hsuff
  have hrev : (rstrip s).reverse = s.reverse.dropWhile pyIsSpace := by
    unfold rstrip; rw [List.reverse_reverse]
  refine rstrip_eq_self fun c w hw => ?_
  rw [hw, hrev] at hpre
  obtain ⟨r, hr⟩ := hpre
  exact dropWhile_head_false (l := s.reverse) hr.symm

theorem pystrip_idem (s : List Char) : pystrip (pystrip s) = pystrip s := by
  show lstrip (rstrip (lstrip (rstrip s))) = pystrip s
  rw [rstrip_lstrip_rstrip, lstrip_idem]
  rfl

theorem lstrip_append {u v : List Char} (h : lstrip u ≠ []) :
    lstrip (u ++ v) = lstrip u ++ v := by
  unfold lstrip at *
  rw [List.dropWhile_append, if_neg (by simpa [List.isEmpty_iff] using h)]

theorem rstrip_append {u v : List Char} (h : rstrip v ≠ []) :
    rstrip (u ++ v) = u ++ rstrip v := by
  have h' : v.reverse.dropWhile pyIsSpace ≠ [] := by
    intro hnil
    exact h (by unfold rstrip; rw [hnil]; rfl)
  unfold rstrip at *
  rw [List.reverse_append, List.dropWhile_append,
    if_neg (by simpa [List.isEmpty_iff] using h'), List.reverse_append,
    List.reverse_reverse]

theorem rstrip_append_space {u : List Char} {c : Char} (h : pyIsSpace c = true) :
    rstrip (u ++ [c]) = rstrip u := by
  unfold rstrip
  rw [List.reverse_append]
  simp [h]

/-! ## Lemmas about joining and splitting lines -/

theorem joinNl_single (a : List Char) : joinNl [a] = a := by
  unfold joinNl List.intercalate
  simp

theorem joinNl_cons {a : List Char} {L : List (List Char)} (h : L ≠ []) :
    joinNl (a :: L) = a ++ '\n' :: joinNl L := by
  obtain ⟨b, t, rfl⟩ : ∃ b t, L = b :: t := by
    cases L with
    | nil => exact absurd rfl h
    | cons b t => exact ⟨b, t, rfl⟩
  unfold joinNl List.intercalate
  simp

theorem joinNl_concat {A : List (List Char)} {x : List Char} (h : A ≠ []) :
    joinNl (A ++ [x]) = joinNl A ++ '\n' :: x := by
  induction A with
  | nil => exact absurd rfl h
  | cons a A ih =>
    cases A with
    | nil =>
      rw [joinNl_single]
      simpa [joinNl_single] using joinNl_cons (a := a) (L := [x]) (by simp)
    | cons b t =>
      rw [List.cons_append, joinNl_cons (by simp), joinNl_cons (by simp),
        ih (by simp), List.append_assoc]
      rfl

theorem mem_joinNl {c : Char} {l : List Char} {A : List (List Char)}
    (hl : l ∈ A) (hc : c ∈ l) : c ∈ joinNl A := by
  induction A with
  | nil => simp at hl
  | cons a A ih =>
    cases A with
    | nil =>
      rw [List.mem_singleton] at hl
      subst hl
      rwa [joinNl_single]
    | cons b t =>
      rw [joinNl_cons (by simp), List.mem_append]
      rcases List.mem_cons.mp hl with rfl | hl
      · exact Or.inl hc
      · exact Or.inr (List.mem_cons_of_mem _ (ih hl))

theorem mem_splitOnP {α : Type} {p : α → Bool} (xs : List α) :
    ∀ l ∈ xs.splitOnP p, ∀ a ∈ l, p a = false := by
  induction xs with
  | nil =>
    intro l hl a ha
    rw [List.splitOnP_nil, List.mem_singleton] at hl
    subst hl
    simp at ha
  | cons x xs ih =>
    intro l hl a ha
    rw [List.splitOnP_cons] at hl
    by_cases hx : p x
    · rw [if_pos hx] at hl
      rcases List.mem_cons.mp hl with rfl | hl
      · simp at ha
      · exact ih l hl a ha
    · rw [if_neg hx] at hl
      cases hsp : xs.splitOnP p with
      | nil => exact absurd hsp (List.splitOnP_ne_nil p xs)
      | cons hd t =>
        rw [hsp, List.modifyHead_cons] at hl
        rcases List.mem_cons.mp hl with rfl | hl
        · rcases List.mem_cons.mp ha with rfl | ha
          · simpa using hx
          · exact ih hd (hsp ▸ List.mem_cons_self hd t) a ha
        · exact ih l (hsp ▸ List.mem_cons_of_mem hd hl) a ha

theorem mem_splitOn_no_newline {s l : List Char} (hl : l ∈ s.splitOn '\n') :
    '\n' ∉ l := by
  intro hmem
  have := mem_splitOnP (p := (· == '\n')) s l hl '\n' hmem
  simp at this

theorem splitOn_joinNl {A : List (List Char)} (hne : A ≠ [])
    (hnl : ∀ l ∈ A, '\n' ∉ l) : (joinNl A).splitOn '\n' = A :=
  List.splitOn_intercalate A '\n' hnl hne

theorem joinNl_splitOn (s : List Char) : joinNl (s.splitOn '\n') = s :=
  List.intercalate_splitOn s '\n'

/-! ## Lemmas about the line-cleanup loop -/

theorem cleanAux_invariant (L : List (List Char)) :
    ∀ acc, acc ≠ [] → isBlank (acc.getLastD []) = false →
      cleanAux acc L = acc ++ cleanAfter L := by
  induction L with
  | nil => intro acc _ _; simp [cleanAux, cleanAfter]
  | cons l rest ih =>
    intro acc hne hlast
    by_cases hb : isBlank l = false
    · rw [show cleanAux acc (l :: rest) = cleanAux (acc ++ [l]) rest by
        simp only [cleanAux]; rw [if_pos hb]]
      rw [show cleanAfter (l :: rest) = l :: cleanAfter rest by
        simp only [cleanAfter]; rw [if_pos hb]]
      rw [ih (acc ++ [l]) (by simp) (by rw [List.getLastD_concat]; exact hb)]
      simp
    · rw [show cleanAux acc (l :: rest) = acc ++ [[]] by
        simp only [cleanAux]; rw [if_neg hb, if_pos ⟨hne, hlast⟩]]
      rw [show cleanAfter (l :: rest) = [[]] by
        simp only [cleanAfter]; rw [if_neg hb]]

theorem cleanAux_nil_eq_cleanStart (L : List (List Char)) :
    cleanAux [] L = cleanStart L := by
  induction L with
  | nil => rfl
  | cons l rest ih =>
    by_cases hb : isBlank l = false
    · rw [show cleanAux [] (l :: rest) = cleanAux [l] rest by
        simp only [cleanAux]; rw [if_pos hb, List.nil_append]]
      rw [show cleanStart (l :: rest) = l :: cleanAfter rest by
        simp only [cleanStart]; rw [if_pos hb]]
      rw [cleanAux_invariant rest [l] (by simp) (by simpa using hb)]
      rfl
    · rw [show cleanAux [] (l :: rest) = cleanAux [] rest by
        simp only [cleanAux]; rw [if_neg hb, if_neg (by simp)]]
      rw [show cleanStart (l :: rest) = cleanStart rest by
        simp only [cleanStart]; rw [if_neg hb]]
      exact ih

theorem cleanAfter_gap (L : List (List Char)) :
    cleanAfter L = (L.take (gapSearch true L)).filter (fun l => !(isBlank l)) ∨
    cleanAfter L =
      (L.take (gapSearch true L)).filter (fun l => !(isBlank l)) ++ [[]] := by
  induction L with
  | nil => left; rfl
  | cons l rest ih =>
    by_cases hb : isBlank l = false
    · rw [show cleanAfter (l :: rest) = l :: cleanAfter rest by
        simp only [cleanAfter]; rw [if_pos hb]]
      rw [show gapSearch true (l :: rest) = 1 + gapSearch true rest by
        simp only [gapSearch, hb]; rfl]
      rw [show ((l :: rest).take (1 + gapSearch true rest)).filter (fun l => !(isBlank l)) =
          l :: (rest.take (gapSearch true rest)).filter (fun l => !(isBlank l)) by
        rw [Nat.add_comm, List.take_succ_cons, List.filter_cons_of_pos (by simp [hb])]]
      rcases ih with h | h
      · left; rw [h]
      · right; rw [h]; rfl
    · have hb' : isBlank l = true := by simpa using hb
      rw [show cleanAfter (l :: rest) = [[]] by
        simp only [cleanAfter]; rw [if_neg hb]]
      rw [show gapSearch true (l :: rest) = 0 by simp [gapSearch, hb']]
      right; rfl

theorem cleanStart_gap (L : List (List Char)) :
    cleanStart L = gapContent L ∨ cleanStart L = gapContent L ++ [[]] := by
  unfold gapContent firstGapIdx
  induction L with
  | nil => left; rfl
  | cons l rest ih =>
    by_cases hb : isBlank l = false
    · rw [show cleanStart (l :: rest) = l :: cleanAfter rest by
        simp only [cleanStart]; rw [if_pos hb]]
      rw [show gapSearch false (l :: rest) = 1 + gapSearch true rest by
        simp [gapSearch, hb]]
      rw [Nat.add_comm, List.take_succ_cons, List.filter_cons_of_pos (by simp [hb])]
      rcases cleanAfter_gap rest with h | h
      · left; rw [h]
      · right; rw [h]; rfl
    · have hb' : isBlank l = true := by simpa using hb
      rw [show cleanStart (l :: rest) = cleanStart rest by
        simp only [cleanStart]; rw [if_neg hb]]
      rw [show gapSearch false (l :: rest) = 1 + gapSearch false rest by
        simp [gapSearch, hb']]
      rw [Nat.add_comm, List.take_succ_cons, List.filter_cons_of_neg (by simp [hb'])]
      exact ih

theorem mem_gapContent_nonblank {L : List (List Char)} {l : List Char}
    (h : l ∈ gapContent L) : isBlank l = false := by
  have := List.of_mem_filter h
  simpa using this

theorem mem_gapContent_sub {L : List (List Char)} {l : List Char}
    (h : l ∈ gapContent L) : l ∈ L :=
  List.take_subset _ _ (List.mem_of_mem_filter h)

theorem cleanAfter_all_nonblank {L : List (List Char)}
    (h : ∀ l ∈ L, isBlank l = false) : cleanAfter L = L := by
  induction L with
  | nil => rfl
  | cons r rs ihr =>
    have hr : isBlank r = false := h r (List.mem_cons_self r rs)
    rw [show cleanAfter (r :: rs) = r :: cleanAfter rs by
      simp only [cleanAfter]; rw [if_pos hr]]
    rw [ihr fun x hx => h x (List.mem_cons_of_mem r hx)]

theorem cleanStart_all_nonblank {L : List (List Char)}
    (h : ∀ l ∈ L, isBlank l = false) : cleanStart L = L := by
  cases L with
  | nil => rfl
  | cons l rest =>
    have hb : isBlank l = false := h l (List.mem_cons_self l rest)
    rw [show cleanStart (l :: rest) = l :: cleanAfter rest by
      simp only [cleanStart]; rw [if_pos hb]]
    rw [cleanAfter_all_nonblank fun x hx => h x (List.mem_cons_of_mem l hx)]

/-! ## The shape of the post-processed output -/

theorem joinNl_ne_nil_of_nonblank {A : List (List Char)} {a : List Char}
    (ha : a ∈ A) (hb : isBlank a = false) : joinNl A ≠ [] := by
  obtain ⟨c, hc, hns⟩ := isBlank_eq_false_iff.mp hb
  intro h
  have := mem_joinNl ha hc
  rw [h] at this
  simp at this

theorem rstrip_joinNl {A : List (List Char)} (hne : A ≠ [])
    (hnb : ∀ l ∈ A, isBlank l = false) :
    ∃ a, rstrip (joinNl A) = joinNl (A.dropLast ++ [a]) ∧ isBlank a = false ∧
      ∃ b ∈ A, ∀ c ∈ a, c ∈ b := by
  induction A with
  | nil => exact absurd rfl hne
  | cons x B ih =>
    cases B with
    | nil =>
      refine ⟨rstrip x, by simp [joinNl_single], ?_, x, by simp, fun c hc => mem_rstrip hc⟩
      obtain ⟨c, hc, hns⟩ := isBlank_eq_false_iff.mp (hnb x (by simp))
      exact isBlank_eq_false_iff.mpr ⟨c, mem_rstrip_of_not_space hc hns, hns⟩
    | cons y B' =>
      obtain ⟨a, ha, hab, b, hbmem, hbsub⟩ :=
        ih (by simp) (fun l hl => hnb l (List.mem_cons_of_mem x hl))
      have hblast : isBlank a = false := hab
      have hjoin_ne : rstrip (joinNl (y :: B')) ≠ [] := by
        rw [ha]
        have hmem : a ∈ (y :: B').dropLast ++ [a] := by simp
        exact joinNl_ne_nil_of_nonblank hmem hab
      refine ⟨a, ?_, hab, b, List.mem_cons_of_mem x hbmem, hbsub⟩
      rw [joinNl_cons (by simp),
        show x ++ '\n' :: joinNl (y :: B') = (x ++ ['\n']) ++ joinNl (y :: B') by simp,
        rstrip_append hjoin_ne, ha,
        show (x :: y :: B').dropLast ++ [a] = x :: ((y :: B').dropLast ++ [a]) by simp,
        joinNl_cons (by simp)]
      simp

theorem lstrip_joinNl {x : List Char} {X : List (List Char)}
    (hx : isBlank x = false) :
    lstrip (joinNl (x :: X)) = joinNl (lstrip x :: X) ∧
      isBlank (lstrip x) = false ∧ ∀ c ∈ lstrip x, c ∈ x := by
  obtain ⟨c, hc, hns⟩ := isBlank_eq_false_iff.mp hx
  have hlx : lstrip x ≠ [] := by
    intro h
    exact absurd (h ▸ mem_lstrip_of_not_space hc hns) (by simp)
  have hblk : isBlank (lstrip x) = false :=
    isBlank_eq_false_iff.mpr ⟨c, mem_lstrip_of_not_space hc hns, hns⟩
  cases X with
  | nil => exact ⟨by rw [joinNl_single, joinNl_single], hblk, fun _ h => mem_lstrip h⟩
  | cons y Y =>
    refine ⟨?_, hblk, fun _ h => mem_lstrip h⟩
    have hR : joinNl (lstrip x :: y :: Y) = lstrip x ++ '\n' :: joinNl (y :: Y) :=
      joinNl_cons (by simp)
    rw [joinNl_cons (by simp), hR, lstrip_append hlx]

theorem pystrip_joinNl_concat_nil {A : List (List Char)} :
    pystrip (joinNl (A ++ [[]])) = pystrip (joinNl A) := by
  cases hA : A with
  | nil => rfl
  | cons x X =>
    rw [← hA, joinNl_concat (by rw [hA]; simp)]
    show lstrip (rstrip (joinNl A ++ ['\n'])) = pystrip (joinNl A)
    rw [rstrip_append_space (by rfl)]
    rfl

/-- Structure of `post_process_completion s`: it is empty, or it is the
`'\n'`-join of a non-empty list of lines, each non-blank and free of
newlines, and splitting it on `'\n'` recovers exactly those lines. -/
theorem postprocess_shape (s : List Char) :
    post_process_completion s = [] ∨
    ∃ M : List (List Char), M ≠ [] ∧ (∀ l ∈ M, isBlank l = false) ∧
      (∀ l ∈ M, '\n' ∉ l) ∧ post_process_completion s = joinNl M ∧
      (post_process_completion s).splitOn '\n' = M := by
  set L := (stripArtifacts (pystrip s)).splitOn '\n' with hL
  have hGnb : ∀ l ∈ gapContent L, isBlank l = false := fun l hl => mem_gapContent_nonblank hl
  have hGnl : ∀ l ∈ gapContent L, '\n' ∉ l := fun l hl =>
    mem_splitOn_no_newline (mem_gapContent_sub hl)
  have hout : post_process_completion s = pystrip (joinNl (cleanStart L)) := by
    unfold post_process_completion
    rw [cleanAux_nil_eq_cleanStart]
  have hred : post_process_completion s = pystrip (joinNl (gapContent L)) := by
    rcases cleanStart_gap L with h | h
    · rw [hout, h]
    · rw [hout, h, pystrip_joinNl_concat_nil]
  cases hG : gapContent L with
  | nil => left; rw [hred, hG]; rfl
  | cons g G' =>
    right
    have hGne : gapContent L ≠ [] := by rw [hG]; simp
    obtain ⟨a, ha, hab, b, hbmem, hbsub⟩ := rstrip_joinNl hGne hGnb
    have hanl : '\n' ∉ a := fun hmem => hGnl b hbmem (hbsub '\n' hmem)
    have hdrop_sub : ∀ l ∈ (gapContent L).dropLast ++ [a], isBlank l = false := by
      intro l hl
      rcases List.mem_append.mp hl with hl | hl
      · exact hGnb l (List.dropLast_subset _ hl)
      · rw [List.mem_singleton] at hl; exact hl ▸ hab
    have hdrop_nl : ∀ l ∈ (gapContent L).dropLast ++ [a], '\n' ∉ l := by
      intro l hl
      rcases List.mem_append.mp hl with hl | hl
      · exact hGnl l (List.dropLast_subset _ hl)
      · rw [List.mem_singleton] at hl; exact hl ▸ hanl
    cases hD : (gapContent L).dropLast ++ [a] with
    | nil => exact absurd hD (by simp)
    | cons x X =>
      have hxnb : isBlank x = false := hdrop_sub x (by rw [hD]; simp)
      obtain ⟨hjoin, hlb, hlsub⟩ := lstrip_joinNl (X := X) hxnb
      refine ⟨lstrip x :: X, by simp, ?_, ?_, ?_, ?_⟩
      · intro l hl
        rcases List.mem_cons.mp hl with rfl | hl
        · exact hlb
        · exact hdrop_sub l (by rw [hD]; exact List.mem_cons_of_mem x hl)
      · intro l hl
        rcases List.mem_cons.mp hl with rfl | hl
        · exact fun hmem => hdrop_nl x (by rw [hD]; simp) (hlsub '\n' hmem)
        · exact hdrop_nl l (by rw [hD]; exact List.mem_cons_of_mem x hl)
      · show post_process_completion s = joinNl (lstrip x :: X)
        rw [hred]
        show lstrip (rstrip (joinNl (gapContent L))) = joinNl (lstrip x :: X)
        rw [ha, hD, hjoin]
      · rw [show post_process_completion s = joinNl (lstrip x :: X) by
          rw [hred]
          show lstrip (rstrip (joinNl (gapContent L))) = joinNl (lstrip x :: X)
          rw [ha, hD, hjoin]]
        refine splitOn_joinNl (by simp) ?_
        intro l hl
        rcases List.mem_cons.mp hl with rfl | hl
        · exact fun hmem => hdrop_nl x (by rw [hD]; simp) (hlsub '\n' hmem)
        · exact hdrop_nl l (by rw [hD]; exact List.mem_cons_of_mem x hl)

/-! ## Lemmas about artifact-token occurrences -/

theorem removeAll_no_occurrence {pat s : List Char} (h : ¬ pat <:+: s) :
    removeAll pat s = s := by
  induction s with
  | nil => rfl
  | cons c rest ih =>
    rw [show removeAll pat (c :: rest) = c :: removeAll pat rest by
      rw [removeAll_cons]
      rw [if_neg]
      rintro ⟨hp, -⟩
      exact h (List.isPrefixOf_iff_prefix.mp hp).isInfix]
    rw [ih fun hinf => h (List.infix_cons hinf)]

theorem pystrip_infix_self (s : List Char) : pystrip s <:+: s := by
  have h1 : rstrip s <+: s := by
    have h2 := List.reverse_prefix.mpr (List.dropWhile_suffix (l := s.reverse) pyIsSpace)
    rwa [List.reverse_reverse] at h2
  exact (List.dropWhile_suffix pyIsSpace).isInfix.trans h1.isInfix

theorem prefix_through_char {pat : List Char} :
    ∀ (x y : List Char) (c : Char), c ∉ pat → pat <+: x ++ c :: y → pat <+: x := by
  induction pat with
  | nil => intro x _ _ _ _; exact List.nil_prefix
  | cons p pt ih =>
    intro x y c hc h
    cases x with
    | nil =>
      obtain ⟨r, hr⟩ := h
      rw [List.nil_append, List.cons_append] at hr
      injection hr with h1 _
      exact absurd (h1 ▸ List.mem_cons_self p pt) hc
    | cons a x' =>
      obtain ⟨r, hr⟩ := h
      rw [List.cons_append, List.cons_append] at hr
      injection hr with h1 h2
      subst h1
      rw [List.cons_prefix_cons]
      exact ⟨rfl, ih x' y c (fun hm => hc (List.mem_cons_of_mem _ hm)) ⟨r, h2⟩⟩

theorem infix_through_char {pat : List Char} :
    ∀ (x y : List Char) (c : Char), c ∉ pat → pat <:+: x ++ c :: y →
      pat <:+: x ∨ pat <:+: y := by
  intro x
  induction x with
  | nil =>
    intro y c hc h
    rw [List.nil_append] at h
    rcases List.infix_cons_iff.mp h with h | h
    · cases pat with
      | nil => exact Or.inl (by simp)
      | cons p pt =>
        rw [List.cons_prefix_cons] at h
        exact absurd (h.1 ▸ List.mem_cons_self p pt) hc
    · exact Or.inr h
  | cons a x' ih =>
    intro y c hc h
    rw [List.cons_append] at h
    rcases List.infix_cons_iff.mp h with h | h
    · have := prefix_through_char (a :: x') y c hc (by rwa [List.cons_append])
      exact Or.inl this.isInfix
    · rcases ih y c hc h with h | h
      · exact Or.inl (List.infix_cons h)
      · exact Or.inr h

theorem infix_joinNl_mem {pat : List Char} (hnl : '\n' ∉ pat) (hne : pat ≠ []) :
    ∀ (A : List (List Char)), pat <:+: joinNl A → ∃ l ∈ A, pat <:+: l := by
  intro A
  induction A with
  | nil =>
    intro h
    rw [show joinNl [] = [] from rfl, List.infix_nil] at h
    exact absurd h hne
  | cons a A ih =>
    intro h
    cases A with
    | nil =>
      rw [joinNl_single] at h
      exact ⟨a, by simp, h⟩
    | cons b t =>
      rw [joinNl_cons (by simp)] at h
      rcases infix_through_char a (joinNl (b :: t)) '\n' hnl h with h | h
      · exact ⟨a, by simp, h⟩
      · obtain ⟨l, hl, hinf⟩ := ih h
        exact ⟨l, List.mem_cons_of_mem a hl, hinf⟩

theorem mem_infix_joinNl {l : List Char} {A : List (List Char)} (hl : l ∈ A) :
    l <:+: joinNl A := by
  induction A with
  | nil => simp at hl
  | cons a A ih =>
    cases A with
    | nil =>
      rw [List.mem_singleton] at hl
      subst hl
      rw [joinNl_single]
    | cons b t =>
      rw [joinNl_cons (by simp)]
      rcases List.mem_cons.mp hl with rfl | hl
      · exact (List.prefix_append l ('\n' :: joinNl (b :: t))).isInfix
      · exact (List.infix_cons (ih hl)).trans
          ⟨a, [], by rw [List.append_nil]⟩

theorem infix_of_mem_splitOn {u l : List Char} (hl : l ∈ u.splitOn '\n') :
    l <:+: u := by
  have := mem_infix_joinNl hl
  rwa [joinNl_splitOn] at this

theorem artifact_facts : ∀ tok ∈ artifacts, tok ≠ [] ∧ '\n' ∉ tok := by
  decide

/-- If the artifact-stripped trimmed input contains no artifact token, the
post-processed output contains none either. -/
theorem tokenFree_postprocess {s : List Char}
    (h : tokenFree (stripArtifacts (pystrip s))) :
    tokenFree (post_process_completion s) := by
  intro tok htok hinf
  obtain ⟨htne, htnl⟩ := artifact_facts tok htok
  have hout : post_process_completion s =
      pystrip (joinNl (cleanStart ((stripArtifacts (pystrip s)).splitOn '\n'))) := by
    unfold post_process_completion
    rw [cleanAux_nil_eq_cleanStart]
  rw [hout] at hinf
  have hinf2 := hinf.trans (pystrip_infix_self _)
  obtain ⟨l, hl, hinf3⟩ := infix_joinNl_mem htnl htne _ hinf2
  have hl' : l = [] ∨ l ∈ (stripArtifacts (pystrip s)).splitOn '\n' := by
    rcases cleanStart_gap ((stripArtifacts (pystrip s)).splitOn '\n') with hcs | hcs
    · rw [hcs] at hl
      exact Or.inr (mem_gapContent_sub hl)
    · rw [hcs] at hl
      rcases List.mem_append.mp hl with hl | hl
      · exact Or.inr (mem_gapContent_sub hl)
      · rw [List.mem_singleton] at hl
        exact Or.inl hl
  rcases hl' with rfl | hl'
  · rw [List.infix_nil] at hinf3
    exact htne hinf3
  · exact h tok htok (hinf3.trans (infix_of_mem_splitOn hl'))

theorem foldl_removeAll_id {toks : List (List Char)} {t : List Char}
    (h : ∀ tok ∈ toks, ¬ tok <:+: t) :
    toks.foldl (fun acc pat => removeAll pat acc) t = t := by
  induction toks with
  | nil => rfl
  | cons tok rest ih =>
    rw [List.foldl_cons, removeAll_no_occurrence (h tok (by simp))]
    exact ih fun x hx => h x (List.mem_cons_of_mem tok hx)

theorem stripArtifacts_of_tokenFree {t : List Char} (h : tokenFree t) :
    stripArtifacts t = t :=
  foldl_removeAll_id h

/-- A string that is already trimmed, has only non-blank lines (or is
empty), and contains no artifact token is a fixed point of the
post-processor. -/
theorem postprocess_fixed {t : List Char} (hfix : pystrip t = t)
    (hlines : t = [] ∨ ∀ l ∈ t.splitOn '\n', isBlank l = false)
    (htok : tokenFree t) :
    post_process_completion t = t := by
  unfold post_process_completion
  rw [cleanAux_nil_eq_cleanStart, hfix, stripArtifacts_of_tokenFree htok]
  rcases hlines with rfl | hlines
  · rfl
  · rw [cleanStart_all_nonblank hlines, joinNl_splitOn, hfix]

/-- The output of the post-processor is always trimmed, and is empty or
consists solely of non-blank lines. -/
theorem postprocess_tidy (s : List Char) :
    pystrip (post_process_completion s) = post_process_completion s ∧
      (post_process_completion s = [] ∨
        ∀ l ∈ (post_process_completion s).splitOn '\n', isBlank l = false) := by
  constructor
  · unfold post_process_completion
    exact pystrip_idem _
  · rcases postprocess_shape s with h | ⟨M, _, hnb, _, _, hsplit⟩
    · exact Or.inl h
    · exact Or.inr fun l hl => hnb l (hsplit ▸ hl)

/-! ## Lemmas about the request pipeline -/

theorem generate_completion_ok {b : GenBackend} {clock : Nat → ℚ}
    {req : CompletionRequest} {cfg : ServerConfig} {raw : List Char}
    (h : b.generate (prepare_prompt req) (genOpts req cfg) = .ok raw) :
    generate_completion b clock true req cfg =
      (.ok (post_process_completion (pystrip raw), clock 1 - clock 0),
       [.timeSample 0, .backendGenerate (prepare_prompt req) (genOpts req cfg),
        .timeSample 1, .postProcess]) := by
  unfold generate_completion
  simp [h]

theorem generate_completion_err {b : GenBackend} {clock : Nat → ℚ}
    {req : CompletionRequest} {cfg : ServerConfig} {e : PyError}
    (h : b.generate (prepare_prompt req) (genOpts req cfg) = .error e) :
    generate_completion b clock true req cfg =
      (.error (.backend e),
       [.timeSample 0, .backendGenerate (prepare_prompt req) (genOpts req cfg)]) := by
  unfold generate_completion
  simp [h]

theorem get_completion_ok_inv {b : GenBackend} {clock : Nat → ℚ}
    {req : CompletionRequest} {cfg : ServerConfig} {resp : CompletionResponse}
    {tr : List Event}
    (h : get_completion true b clock true req cfg = (.ok resp, tr)) :
    ∃ raw, b.generate (prepare_prompt req) (genOpts req cfg) = .ok raw ∧
      resp.suggestion = post_process_completion (pystrip raw) ∧
      resp.processing_time = clock 1 - clock 0 ∧
      resp.confidence = min (95/100 : ℚ)
        ((resp.suggestion.length : ℚ) / 100 * (8/10) +
          1 / max resp.processing_time (1/10) * (2/10)) := by
  unfold get_completion at h
  cases hg : b.generate (prepare_prompt req) (genOpts req cfg) with
  | error e =>
    rw [generate_completion_err hg] at h
    simp at h
  | ok raw =>
    rw [generate_completion_ok hg] at h
    simp at h
    obtain ⟨hresp, -⟩ := h
    subst hresp
    exact ⟨raw, rfl, by simp, by simp, by simp [one_div]⟩

/-! ## The claims -/

/-- C1: a completion request received while the model is not loaded
(`model_loaded = false`, covering the Uninitialized/Loading/Failed states)
makes `generate_completion` fail with the not-ready `RuntimeError` and an
empty event trace — in particular no backend generate event — and the HTTP
adapter surfaces both the engine-absent and the model-not-loaded situations
as status 503. -/
theorem claim_C1 (b : GenBackend) (clock : Nat → ℚ) (req : CompletionRequest)
    (cfg : ServerConfig) (ml : Bool) (h : ml = false) :
    generate_completion b clock ml req cfg = (.error .notLoaded, []) ∧
    (∀ p o, Event.backendGenerate p o ∉ (generate_completion b clock ml req cfg).2) ∧
    (get_completion true b clock ml req cfg).1 =
      .httpError 503 "Model not loaded".data ∧
    (get_completion false b clock ml req cfg).1 =
      .httpError 503 "Inference engine not initialized".data := by
  subst h
  refine ⟨rfl, ?_, rfl, rfl⟩
  intro p o hmem
  simp [generate_completion] at hmem

/-- Witness for C1 at concrete inputs. -/
theorem claim_C1_witness :
    generate_completion sampleBackend sampleClock false sampleRequest defaultConfig =
      (.error .notLoaded, []) ∧
    (∀ p o, Event.backendGenerate p o ∉
      (generate_completion sampleBackend sampleClock false sampleRequest defaultConfig).2) ∧
    (get_completion true sampleBackend sampleClock false sampleRequest defaultConfig).1 =
      .httpError 503 "Model not loaded".data ∧
    (get_completion false sampleBackend sampleClock false sampleRequest defaultConfig).1 =
      .httpError 503 "Inference engine not initialized".data :=
  claim_C1 sampleBackend sampleClock sampleRequest defaultConfig false rfl

/-- C2: every successful completion response carries confidence exactly
`min(0.95, (len(suggestion)/100)*0.8 + (1/max(processingTime, 0.1))*0.2)`,
and this expression at suggestion length 50 and processing time 0.5 equals
exactly 0.8. -/
theorem claim_C2 (b : GenBackend) (clock : Nat → ℚ) (req : CompletionRequest)
    (cfg : ServerConfig) (resp : CompletionResponse) (tr : List Event)
    (h : get_completion true b clock true req cfg = (.ok resp, tr)) :
    resp.confidence = min (95/100 : ℚ)
      ((resp.suggestion.length : ℚ) / 100 * (8/10) +
        1 / max resp.processing_time (1/10) * (2/10)) ∧
    min (95/100 : ℚ) (((50 : ℚ)) / 100 * (8/10) + 1 / max (1/2 : ℚ) (1/10) * (2/10)) =
      8/10 := by
  obtain ⟨raw, -, -, -, hconf⟩ := get_completion_ok_inv h
  refine ⟨hconf, ?_⟩
  rw [max_eq_left (by norm_num)]
  norm_num

theorem sample_run_eq :
    get_completion true sampleBackend sampleClock true sampleRequest defaultConfig =
      (.ok sampleResponse, sampleTrace) := by
  unfold get_completion
  have hb : sampleBackend.generate (prepare_prompt sampleRequest)
      (genOpts sampleRequest defaultConfig) = .ok "\n    print('hi')\n\n".data := rfl
  rw [generate_completion_ok hb]
  have hC : post_process_completion (pystrip "\n    print('hi')\n\n".data) =
      "print('hi')".data := by decide
  have hT : sampleClock 1 - sampleClock 0 = 1/2 := by
    norm_num [sampleClock]
  show (HttpResult.ok
      { suggestion := post_process_completion (pystrip "\n    print('hi')\n\n".data),
        confidence := min (95/100 : ℚ)
          (((post_process_completion (pystrip "\n    print('hi')\n\n".data)).length : ℚ)
              / 100 * (8/10) +
            1 / max (sampleClock 1 - sampleClock 0) (1/10) * (2/10)),
        processing_time := sampleClock 1 - sampleClock 0 },
      [Event.timeSample 0,
       Event.backendGenerate (prepare_prompt sampleRequest)
         (genOpts sampleRequest defaultConfig),
       Event.timeSample 1, Event.postProcess]) = (.ok sampleResponse, sampleTrace)
  rw [hC, hT]
  show (_, _) = (_, _)
  refine congrArg₂ Prod.mk (congrArg HttpResult.ok ?_) rfl
  show CompletionResponse.mk _ _ _ = sampleResponse
  unfold sampleResponse
  refine congrArg₂ (CompletionResponse.mk _) ?_ rfl
  show min (95/100 : ℚ) ((("print('hi')".data).length : ℚ) / 100 * (8/10) +
    1 / max (1/2 : ℚ) (1/10) * (2/10)) = 61/125
  rw [max_eq_left (by norm_num)]
  norm_num

/-- Witness for C2: the sample run. -/
theorem claim_C2_witness :
    sampleResponse.confidence = min (95/100 : ℚ)
      ((sampleResponse.suggestion.length : ℚ) / 100 * (8/10) +
        1 / max sampleResponse.processing_time (1/10) * (2/10)) ∧
    min (95/100 : ℚ) (((50 : ℚ)) / 100 * (8/10) + 1 / max (1/2 : ℚ) (1/10) * (2/10)) =
      8/10 :=
  claim_C2 sampleBackend sampleClock sampleRequest defaultConfig sampleResponse
    sampleTrace sample_run_eq

/-- C3 as stated is false at an explicit input: with the model loaded, a
request that explicitly sets temperature = 0.0 is dispatched to the backend
with the configured default temperature 0.1, not with 0.0 — the fallback
`request.temperature or self.config.temperature` is Python truthiness, not
null-coalescing. -/
theorem claim_C3_counterexample :
    zeroTempRequest.temperature = some 0 ∧
    (generate_completion sampleBackend sampleClock true zeroTempRequest
        defaultConfig).2.get? 1 =
      some (.backendGenerate (prepare_prompt zeroTempRequest)
        (genOpts zeroTempRequest defaultConfig)) ∧
    (genOpts zeroTempRequest defaultConfig).temperature = 1/10 ∧
    (1/10 : ℚ) ≠ 0 := by
  have hb : sampleBackend.generate (prepare_prompt zeroTempRequest)
      (genOpts zeroTempRequest defaultConfig) = .ok "\n    print('hi')\n\n".data := rfl
  refine ⟨rfl, ?_,
    by norm_num [genOpts, pyOrRat, zeroTempRequest, sampleRequest, defaultConfig],
    by norm_num⟩
  rw [generate_completion_ok hb]
  rfl

/-- C3 amended: the dispatched options are num_predict = request.max_tokens
when provided and non-zero, else the default 100; temperature =
request.temperature when provided and non-zero, else the default 0.1 (so an
explicit temperature 0.0 falls back to 0.1 — Python truthiness, not
null-coalescing, decides the fallback); top_p = 0.9; and stop tokens
["\n\n", "```", "</code>"]. -/
theorem claim_C3_amended (b : GenBackend) (clock : Nat → ℚ)
    (req : CompletionRequest) :
    (generate_completion b clock true req defaultConfig).2.get? 1 =
      some (.backendGenerate (prepare_prompt req)
        { num_predict :=
            match req.max_tokens with
            | none => 100
            | some v => if v = 0 then 100 else v,
          temperature :=
            match req.temperature with
            | none => 1/10
            | some v => if v = 0 then 1/10 else v,
          top_p := 9/10,
          stop := ["\n\n".data, "```".data, "</code>".data] }) := by
  have hopts : genOpts req defaultConfig =
      { num_predict :=
          match req.max_tokens with
          | none => 100
          | some v => if v = 0 then 100 else v,
        temperature :=
          match req.temperature with
          | none => 1/10
          | some v => if v = 0 then 1/10 else v,
        top_p := 9/10,
        stop := ["\n\n".data, "```".data, "</code>".data] } := by
    unfold genOpts pyOrInt pyOrRat
    cases req.max_tokens <;> cases req.temperature <;> rfl
  cases hg : b.generate (prepare_prompt req) (genOpts req defaultConfig) with
  | error e => rw [generate_completion_err hg, ← hopts]; rfl
  | ok raw => rw [generate_completion_ok hg, ← hopts]; rfl

/-- C4 as stated is false at an explicit input: at the sample Ready-state
run the completion succeeds with processing time 1/2, but no `time.time()`
sample follows the post-processing event, so the measured interval does not
contain post-processing. -/
theorem claim_C4_counterexample :
    (generate_completion sampleBackend sampleClock true sampleRequest
        defaultConfig).1 =
      .ok ("print('hi')".data, 1/2) ∧
    ¬ postInsideMeasured
        (generate_completion sampleBackend sampleClock true sampleRequest
          defaultConfig).2 := by
  have hb : sampleBackend.generate (prepare_prompt sampleRequest)
      (genOpts sampleRequest defaultConfig) = .ok "\n    print('hi')\n\n".data := rfl
  rw [generate_completion_ok hb]
  constructor
  · show Except.ok (post_process_completion (pystrip "\n    print('hi')\n\n".data),
      sampleClock 1 - sampleClock 0) = _
    rw [show post_process_completion (pystrip "\n    print('hi')\n\n".data) =
        "print('hi')".data by decide,
      show sampleClock 1 - sampleClock 0 = 1/2 by norm_num [sampleClock]]
  · decide

/-- C4 amended: for every successful Ready-state generation the returned
processing time is the difference of the two clock samples, both of which
are taken before the post-processing event — the trace is
[timeSample 0, backendGenerate, timeSample 1, postProcess], so the measured
interval covers the backend call but post-processing lies outside it. -/
theorem claim_C4_amended (b : GenBackend) (clock : Nat → ℚ)
    (req : CompletionRequest) (cfg : ServerConfig) (raw : List Char)
    (h : b.generate (prepare_prompt req) (genOpts req cfg) = .ok raw) :
    generate_completion b clock true req cfg =
      (.ok (post_process_completion (pystrip raw), clock 1 - clock 0),
       [.timeSample 0, .backendGenerate (prepare_prompt req) (genOpts req cfg),
        .timeSample 1, .postProcess]) ∧
    ¬ postInsideMeasured (generate_completion b clock true req cfg).2 := by
  refine ⟨generate_completion_ok h, ?_⟩
  rw [generate_completion_ok h]
  simp [postInsideMeasured, timeSampleAfterPost]

/-- Witness for the amended C4 at concrete inputs. -/
theorem claim_C4_witness :
    generate_completion sampleBackend sampleClock true sampleRequest
        defaultConfig =
      (.ok (post_process_completion (pystrip "\n    print('hi')\n\n".data),
        sampleClock 1 - sampleClock 0),
       [.timeSample 0,
        .backendGenerate (prepare_prompt sampleRequest)
          (genOpts sampleRequest defaultConfig),
        .timeSample 1, .postProcess]) ∧
    ¬ postInsideMeasured
        (generate_completion sampleBackend sampleClock true sampleRequest
          defaultConfig).2 :=
  claim_C4_amended sampleBackend sampleClock sampleRequest defaultConfig
    "\n    print('hi')\n\n".data rfl

/-- C5 as stated is false at an explicit input: sequential artifact removal
can splice fragments into a new token occurrence — post-processing
"<<MID>MID>" yields "<MID>", which still contains the artifact token
"<MID>". -/
theorem claim_C5_counterexample :
    post_process_completion "<<MID>MID>".data = "<MID>".data ∧
    ¬ tokenFree "<MID>".data :=
  ⟨by decide, by decide⟩

/-- C5 amended: whenever the artifact-stripped trimmed input contains no
artifact token (sequential removal can otherwise splice two fragments into a
fresh occurrence, as in the counterexample), the post-processed output
contains no artifact token; and, unconditionally, the lines kept by the
cleanup loop are exactly the non-blank lines at or before the first
blank-line gap of the artifact-stripped text, followed by at most one
trailing empty line. -/
theorem claim_C5_amended (s : List Char) :
    (tokenFree (stripArtifacts (pystrip s)) →
      tokenFree (post_process_completion s)) ∧
    (cleanAux [] ((stripArtifacts (pystrip s)).splitOn '\n') =
        gapContent ((stripArtifacts (pystrip s)).splitOn '\n') ∨
      cleanAux [] ((stripArtifacts (pystrip s)).splitOn '\n') =
        gapContent ((stripArtifacts (pystrip s)).splitOn '\n') ++ [[]]) := by
  refine ⟨fun h => tokenFree_postprocess h, ?_⟩
  rw [cleanAux_nil_eq_cleanStart]
  exact cleanStart_gap _

/-- Witness for the amended C5 at a concrete input. -/
theorem claim_C5_witness :
    tokenFree (post_process_completion "x = 1\ny = 2\n\nz = 3".data) :=
  (claim_C5_amended _).1 (by decide)

/-- C6 as stated is false at an explicit input: the post-processor is not
idempotent on "<<MID>MID>" — one application yields "<MID>" and a second
application yields the empty string. -/
theorem claim_C6_counterexample :
    post_process_completion (post_process_completion "<<MID>MID>".data) ≠
      post_process_completion "<<MID>MID>".data := by
  decide

/-- C6 amended: the post-processor is idempotent on every input whose
output contains no artifact token (which covers every raw string whose
artifact-stripped form is token-free); it is not idempotent in general
because sequential token removal can splice a fresh token occurrence into
the output. -/
theorem claim_C6_amended (s : List Char)
    (h : tokenFree (post_process_completion s)) :
    post_process_completion (post_process_completion s) =
      post_process_completion s := by
  obtain ⟨hfix, hlines⟩ := postprocess_tidy s
  exact postprocess_fixed hfix hlines h

/-- Witness for the amended C6 at a concrete input. -/
theorem claim_C6_witness :
    post_process_completion
        (post_process_completion "  result = a + b\n\nignored".data) =
      post_process_completion "  result = a + b\n\nignored".data :=
  claim_C6_amended _ (by decide)

/-- C7: the prompt builder returns exactly
"<PRE> " ++ filename ++ "\n" ++ code ++ "<SUF><MID>", and is a function of
(code, filename) only: two requests agreeing on code and filename receive
the same prompt whatever their language and position. -/
theorem claim_C7 (r r' : CompletionRequest) (hc : r.code = r'.code)
    (hf : r.filename = r'.filename) :
    prepare_prompt r =
      "<PRE> ".data ++ r.filename ++ '\n' :: r.code ++ "<SUF><MID>".data ∧
    prepare_prompt r = prepare_prompt r' := by
  refine ⟨rfl, ?_⟩
  unfold prepare_prompt
  rw [hc, hf]

/-- Witness for C7: two requests differing in language and position get the
same prompt. -/
theorem claim_C7_witness :
    prepare_prompt sampleRequest =
      "<PRE> ".data ++ sampleRequest.filename ++
        '\n' :: sampleRequest.code ++ "<SUF><MID>".data ∧
    prepare_prompt sampleRequest = prepare_prompt altRequest :=
  claim_C7 sampleRequest altRequest rfl rfl

/-- C8: every Ready-state success returns confidence within [0, 0.95] and,
when the clock is non-decreasing, a non-negative processing time. -/
theorem claim_C8 (b : GenBackend) (clock : Nat → ℚ) (req : CompletionRequest)
    (cfg : ServerConfig) (resp : CompletionResponse) (tr : List Event)
    (hclock : clock 0 ≤ clock 1)
    (h : get_completion true b clock true req cfg = (.ok resp, tr)) :
    0 ≤ resp.confidence ∧ resp.confidence ≤ 95/100 ∧
      0 ≤ resp.processing_time := by
  obtain ⟨raw, -, -, hpt, hconf⟩ := get_completion_ok_inv h
  have hpt0 : (0 : ℚ) ≤ resp.processing_time := by
    rw [hpt]; linarith
  refine ⟨?_, ?_, hpt0⟩
  · rw [hconf]
    refine le_min (by norm_num) ?_
    have hmax : (0 : ℚ) < max resp.processing_time (1/10) :=
      lt_of_lt_of_le (by norm_num) (le_max_right _ _)
    have h1 : (0 : ℚ) ≤ (resp.suggestion.length : ℚ) / 100 * (8/10) := by
      positivity
    have h2 : (0 : ℚ) ≤ 1 / max resp.processing_time (1/10) * (2/10) := by
      positivity
    linarith
  · rw [hconf]
    exact min_le_left _ _

/-- Witness for C8: the sample run. -/
theorem claim_C8_witness :
    0 ≤ sampleResponse.confidence ∧ sampleResponse.confidence ≤ 95/100 ∧
      0 ≤ sampleResponse.processing_time :=
  claim_C8 sampleBackend sampleClock sampleRequest defaultConfig
    sampleResponse sampleTrace (by norm_num [sampleClock]) sample_run_eq

/-- C9: when the configured model is absent from the backend's list, the
pull fails, and (backend contract) the validation generation against the
still-missing model raises, `initialize` — embedded as the total function
`init_model`, its try/except meaning no exception ever propagates to the
caller — returns False and leaves `model_loaded = false` (the Failed
state), and the health endpoint then answers 200 with status "healthy" and
modelLoaded = false. -/
theorem claim_C9 (b : InitBackend) (cfg : ServerConfig)
    (names : List (List Char)) (uptime : ℚ)
    (hlist : b.listModels = .ok names)
    (habsent : names.contains cfg.model_name = false)
    (hpull : b.pullOk = false)
    (hgen : ∃ e, b.generateMissing = .error e) :
    init_model b cfg = (false, false) ∧
    health_check (some (init_model b cfg).2) uptime =
      .ok { status := "healthy".data, model_loaded := false,
            server_version := "0.1.0".data, uptime := uptime } := by
  obtain ⟨e, he⟩ := hgen
  have h1 : init_model b cfg = (false, false) := by
    unfold init_model
    rw [hlist]
    have habsent2 : cfg.model_name ∉ names := by simpa using habsent
    simp [habsent, pull_model, hpull, he, habsent2]
  refine ⟨h1, ?_⟩
  rw [h1]
  rfl

/-- Witness for C9 at concrete inputs. -/
theorem claim_C9_witness :
    init_model sampleInitBackend defaultConfig = (false, false) ∧
    health_check (some (init_model sampleInitBackend defaultConfig).2) 5 =
      .ok { status := "healthy".data, model_loaded := false,
            server_version := "0.1.0".data, uptime := 5 } :=
  claim_C9 sampleInitBackend defaultConfig ["other:model".data] 5 rfl
    (by decide) rfl ⟨.err "model not found".data, rfl⟩

/-- C10: the post-processed suggestion has no leading or trailing
whitespace, and it is either empty or every one of its lines contains a
non-whitespace character (the trailing blank line appended by the
truncation step is always removed by the final trim). -/
theorem claim_C10 (s : List Char) :
    pystrip (post_process_completion s) = post_process_completion s ∧
    (post_process_completion s = [] ∨
      ∀ l ∈ (post_process_completion s).splitOn '\n',
        ∃ c ∈ l, pyIsSpace c = false) := by
  obtain ⟨h1, h2⟩ := postprocess_tidy s
  refine ⟨h1, ?_⟩
  rcases h2 with h | h
  · exact Or.inl h
  · exact Or.inr fun l hl => isBlank_eq_false_iff.mp (h l hl)

end Helios
